import Mathlib

/-!
Verification of the fermat.js regression and random-number modules against
their natural-language specification.  The JavaScript source is embedded
shallowly: numbers become real numbers (rationals where exhaustive evaluation
is needed), arrays become lists, and the stateful anti-repetition sampler
becomes explicit state passing.  Each embedded definition mirrors one source
function of `src/regression.js` or the random-number module.
-/

namespace Fermat

/-- Modelled from the spec: the prediction function of the null model is the
identity-zero (no-op) function supplied by the external core helpers. -/
noncomputable def noop : ℝ → ℝ := fun _ => 0

/-- The external core helper used by the coefficient computation:
squaring a number. -/
noncomputable def square (x : ℝ) : ℝ := x * x

/-- Embeds the source function linear from regression.js: single pass
accumulating the sums sX, sY, sXX, sXY, then the closed-form gradient and
intercept; the result is the list of the intercept and the gradient. -/
noncomputable def linear (data : List (ℝ × ℝ)) : List ℝ :=
  let sX := data.foldl (fun s d => s + d.1) 0
  let sY := data.foldl (fun s d => s + d.2) 0
  let sXX := data.foldl (fun s d => s + d.1 * d.1) 0
  let sXY := data.foldl (fun s d => s + d.1 * d.2) 0
  let len : ℝ := data.length
  let gradient := (len * sXY - sX * sY) / (len * sXX - sX * sX)
  let intercept := sY / len - (gradient * sX) / len
  [intercept, gradient]

/-- Embeds the source function polynomial from regression.js, which builds
the design matrix with columns of powers of x and solves the normal
equations.  Modelled from the spec: the external matrix capability
(transpose, product, inverse) is not part of the repository sources and is
instantiated here with Mathlib matrices.  This is the idealized
exact-arithmetic model: Mathlib's inverse is the zero matrix on a singular
XᵀX, whereas the spec's capability fails/signals there, so this definition
is adequate only on inputs whose XᵀX is nonsingular or whose evaluation
never reaches it; polynomialJs below refines it with the signalled
failure. -/
noncomputable def polynomial (data : List (ℝ × ℝ)) (order : ℕ) : List ℝ :=
  let m := data.length
  let X : Matrix (Fin m) (Fin (order + 1)) ℝ := fun i p => (data.get i).1 ^ (p : ℕ)
  let y : Matrix (Fin m) (Fin 1) ℝ := fun i _ => (data.get i).2
  let XT := X.transpose
  let XTX := XT * X
  let inv := XTX⁻¹
  let r := inv * XT * y
  (List.finRange (order + 1)).map fun p => r p 0

/-- Embeds the source function exponential from regression.js: the six
accumulated sums and the closed-form parameters a and b of y = a·e^(bx). -/
noncomputable def exponential (data : List (ℝ × ℝ)) : List ℝ :=
  let s0 := data.foldl (fun s d => s + d.1) 0
  let s1 := data.foldl (fun s d => s + d.2) 0
  let s2 := data.foldl (fun s d => s + d.1 * d.1 * d.2) 0
  let s3 := data.foldl (fun s d => s + d.2 * Real.log d.2) 0
  let s4 := data.foldl (fun s d => s + d.1 * d.2 * Real.log d.2) 0
  let s5 := data.foldl (fun s d => s + d.1 * d.2) 0
  let denominator := s1 * s2 - s5 * s5
  let a := Real.exp ((s2 * s3 - s5 * s4) / denominator)
  let b := (s1 * s4 - s5 * s3) / denominator
  [a, b]

/-- Embeds the source function coefficient from regression.js: the
coefficient of determination R² = 1 - SSE/SSYY.  This is the idealized
exact-arithmetic model with division by zero equal to 0, adequate only on
data whose SSYY is nonzero (on all-equal y values the source produces NaN
instead); coefficientJs below refines it with the IEEE semantics. -/
noncomputable def coefficient (data : List (ℝ × ℝ)) (fn : ℝ → ℝ) : ℝ :=
  let total := data.foldl (fun sum d => sum + d.2) 0
  let mean := total / (data.length : ℝ)
  let ssyy := data.foldl (fun sum d => sum + square (d.2 - mean)) 0
  let sse := data.foldl (fun sum d => sum + square (d.2 - fn d.1)) 0
  1 - sse / ssyy

/-- One entry of the model catalog of regression.js: a name, a fitting
procedure and a prediction-function template over the parameter list. -/
structure RegressionType where
  name : String
  regression : List (ℝ × ℝ) → List ℝ
  fn : List ℝ → ℝ → ℝ

/-- Embeds the fixed model catalog types of regression.js, in source order:
linear, quadratic (polynomial of order 2, the source default), cubic
(polynomial of order 3), exponential. -/
noncomputable def types : List RegressionType :=
  [⟨"linear", linear, fun p x => p.getD 0 0 + x * p.getD 1 0⟩,
   ⟨"quadratic", fun data => polynomial data 2,
     fun p x => p.getD 0 0 + x * p.getD 1 0 + x * x * p.getD 2 0⟩,
   ⟨"cubic", fun data => polynomial data 3,
     fun p x => p.getD 0 0 + x * p.getD 1 0 + x * x * p.getD 2 0 + x * x * x * p.getD 3 0⟩,
   ⟨"exponential", exponential, fun p x => p.getD 0 0 * Real.exp (p.getD 1 0 * x)⟩]

/-- The record returned by find of regression.js: the type tag (null for the
null model), the bound prediction function, the parameter vector, and the
R² score (absent on the null model). -/
structure RegressionModel where
  type : Option String
  fn : ℝ → ℝ
  params : List ℝ
  coeff : Option ℝ

/-- The null model returned by find: null type tag, no-op prediction
function, empty parameter vector, no score. -/
noncomputable def nullModel : RegressionModel := ⟨none, noop, [], none⟩

/-- The R² score a catalog entry obtains on a data set: the source binds the
fitted parameters into the entry's prediction template and scores it with
coefficient. -/
noncomputable def coeffOf (t : RegressionType) (data : List (ℝ × ℝ)) : ℝ :=
  coefficient data (t.fn (t.regression data))

/-- The model record find builds for a qualifying catalog entry. -/
noncomputable def modelOf (t : RegressionType) (data : List (ℝ × ℝ)) : RegressionModel :=
  ⟨some t.name, t.fn (t.regression data), t.regression data, some (coeffOf t data)⟩

/-- The loop body of find from regression.js: walk the catalog in order and
return the first entry whose R² exceeds the threshold, else the null model. -/
noncomputable def findAux (data : List (ℝ × ℝ)) (threshold : ℝ) :
    List RegressionType → RegressionModel
  | [] => nullModel
  | t :: rest =>
    if threshold < coeffOf t data then modelOf t data else findAux data threshold rest

/-- Embeds the source function find from regression.js (the source default
threshold is 0.9): with more than one data point, scan the catalog;
otherwise return the null model.  Like its ingredients, this is the
idealized exact-arithmetic model, adequate on runs that engage no NaN or
matrix-failure path; findJs below is the IEEE- and failure-faithful
refinement. -/
noncomputable def find (data : List (ℝ × ℝ)) (threshold : ℝ) : RegressionModel :=
  if 1 < data.length then findAux data threshold types else nullModel

/-- Embeds the total-weight accumulation of weighted from the random module
(the external iteration helper each adds every entry to the total). -/
def weightedTotal (ws : List ℚ) : ℚ := ws.foldl (fun t x => t + x) 0

/-- Embeds the scan inside weighted: running cumulative sum curr, returning
the index of the first entry with rand ≤ curr.  Modelled from the spec: the
external iteration helper some returns the key/index of the first entry, in
iteration order, whose cumulative weight reaches the draw. -/
def weightedScan : List ℚ → ℚ → ℚ → Option ℕ
  | [], _, _ => none
  | w :: rest, rand, curr =>
    if rand ≤ curr + w then some 0
    else (weightedScan rest rand (curr + w)).map (fun i => i + 1)

/-- Embeds the source function weighted from the random module: the uniform
draw u in [0,1) is scaled by the total weight and the scan selects the
first entry whose cumulative weight reaches it. -/
def weighted (ws : List ℚ) (u : ℚ) : Option ℕ :=
  let total := weightedTotal ws
  let rand := u * total
  weightedScan ws rand 0

/-- Embeds the state update of the source function smart from the random
module: the drawn counter x is decremented by 1, and when it drops to ≤ 0
every counter of that sampler state is incremented by 1. -/
def smartStep (cache : List ℤ) (x : ℕ) : List ℤ :=
  let cache2 := cache.set x (cache.getD x 0 - 1)
  if cache2.getD x 0 ≤ 0 then cache2.map (fun c => c + 1) else cache2

/-- The parallel-assignment swap of two array cells used by shuffle; outside
the array bounds nothing happens (the source loop only ever swaps in
bounds). -/
def swapList {α : Type} (l : List α) (i j : ℕ) : List α :=
  if hi : i < l.length then
    if hj : j < l.length then (l.set i (l.get ⟨j, hj⟩)).set j (l.get ⟨i, hi⟩)
    else l
  else l

/-- The Fisher–Yates loop of shuffle from the random module, iterating the
index i from the last position down to 1 and swapping cell i with the cell
floor(u_i · (i+1)) chosen by the uniform draw u_i in [0,1). -/
def shuffleAux {α : Type} (u : ℕ → ℚ) : ℕ → List α → List α
  | 0, a => a
  | i + 1, a => shuffleAux u i (swapList a (i + 1) (Nat.floor (u (i + 1) * (i + 2))))

/-- Embeds the source function shuffle from the random module: the input is
copied and the Fisher–Yates loop runs from index length-1 down to 1; u
gives the uniform draw consumed at each index. -/
def shuffle {α : Type} (a : List α) (u : ℕ → ℚ) : List α :=
  shuffleAux u (a.length - 1) a

/-- Embeds the source function geometric from the random module: null when
p ≤ 0 or p > 1, else the floor of log u / log (1-p) for the uniform draw
u. -/
noncomputable def geometric (p : ℝ) (u : ℝ) : Option ℤ :=
  if p ≤ 0 ∨ 1 < p then none
  else some ⌊Real.log u / Real.log (1 - p)⌋

/-- The constant G = 7 of the Lanczos approximation in the random module. -/
def G : ℕ := 7

/-- The fixed 9-entry Lanczos coefficient table P of the random module. -/
noncomputable def P : List ℝ :=
  [0.99999999999980993, 676.5203681218851, -1259.1392167224028, 771.32342877765313,
   -176.61502916214059, 12.507343278686905, -0.13857109526572012, 9.9843695780195716e-6,
   1.5056327351493116e-7]

/-- The non-recursive Lanczos branch of the source function gamma: after
z -= 1, accumulate x = P[0] + Σ P[i]/(z+i) for i = 1..G+1 and return
√(2π) · t^(z+0.5) · e^(-t) · x with t = z + G + 0.5. -/
noncomputable def gammaBody (z0 : ℝ) : ℝ :=
  let z := z0 - 1
  let x := (List.range (G + 1)).foldl
    (fun acc i => acc + P.getD (i + 1) 0 / (z + ((i : ℝ) + 1))) (P.getD 0 0)
  let t := z + (G : ℝ) + 0.5
  Real.sqrt (2 * Real.pi) * Real.rpow t (z + 0.5) * Real.exp (-t) * x

/-- Embeds the source function gamma from the random module: for z < 0.5 the
reflection formula π / (sin(πz) · gamma(1-z)) calls gamma recursively, and
otherwise the Lanczos branch is taken.  Termination holds because the
recursive argument 1 - z of the reflection branch is greater than 0.5 and
therefore takes the non-recursive branch. -/
noncomputable def gamma (z : ℝ) : ℝ :=
  if h : z < 0.5 then Real.pi / (Real.sin (Real.pi * z) * gamma (1 - z))
  else gammaBody z
termination_by (if z < (0.5 : ℝ) then (1 : ℕ) else 0)
decreasing_by
  rw [if_pos h, if_neg (by linarith)]
  exact Nat.zero_lt_one

/-- A JavaScript IEEE-754 double as far as the claims need it: not-a-number,
the two infinities, or a finite value modelled as a real number. -/
inductive JsNum : Type where
  | nan : JsNum
  | posinf : JsNum
  | neginf : JsNum
  | fin : ℝ → JsNum

namespace JsNum

/-- IEEE subtraction on the JsNum model. -/
noncomputable def sub : JsNum → JsNum → JsNum
  | nan, _ => nan
  | _, nan => nan
  | fin a, fin b => fin (a - b)
  | fin _, posinf => neginf
  | fin _, neginf => posinf
  | posinf, posinf => nan
  | posinf, _ => posinf
  | neginf, neginf => nan
  | neginf, _ => neginf

/-- IEEE negation on the JsNum model. -/
noncomputable def neg : JsNum → JsNum
  | nan => nan
  | posinf => neginf
  | neginf => posinf
  | fin a => fin (-a)

/-- IEEE multiplication on the JsNum model (an infinity times zero is
not-a-number). -/
noncomputable def mul : JsNum → JsNum → JsNum
  | nan, _ => nan
  | _, nan => nan
  | fin a, fin b => fin (a * b)
  | posinf, posinf => posinf
  | posinf, neginf => neginf
  | neginf, posinf => neginf
  | neginf, neginf => posinf
  | posinf, fin b => if b = 0 then nan else if 0 < b then posinf else neginf
  | fin a, posinf => if a = 0 then nan else if 0 < a then posinf else neginf
  | neginf, fin b => if b = 0 then nan else if 0 < b then neginf else posinf
  | fin a, neginf => if a = 0 then nan else if 0 < a then neginf else posinf

/-- IEEE division on the JsNum model; the finite zero is the positive zero
+0 (the only zero the claims produce), so 0/0 is not-a-number and a nonzero
finite value divided by zero is a signed infinity. -/
noncomputable def div : JsNum → JsNum → JsNum
  | nan, _ => nan
  | _, nan => nan
  | fin a, fin b =>
    if b = 0 then (if a = 0 then nan else if 0 < a then posinf else neginf)
    else fin (a / b)
  | posinf, fin b => if 0 ≤ b then posinf else neginf
  | neginf, fin b => if 0 ≤ b then neginf else posinf
  | fin _, posinf => fin 0
  | fin _, neginf => fin 0
  | posinf, posinf => nan
  | posinf, neginf => nan
  | neginf, posinf => nan
  | neginf, neginf => nan

/-- IEEE exponential on the JsNum model: e^(-∞) is the zero +0. -/
noncomputable def exp : JsNum → JsNum
  | nan => nan
  | posinf => posinf
  | neginf => fin 0
  | fin a => fin (Real.exp a)

/-- IEEE square root on the JsNum model: negative arguments give
not-a-number. -/
noncomputable def sqrt : JsNum → JsNum
  | nan => nan
  | posinf => posinf
  | neginf => nan
  | fin a => if a < 0 then nan else fin (Real.sqrt a)

/-- The external core helper square on the JsNum model. -/
noncomputable def square (x : JsNum) : JsNum := mul x x

end JsNum

/-- Embeds the source function normalPDF from the random module on the IEEE
model: e^(-(x-m)²/(2v)) / √(2πv). -/
noncomputable def normalPDF (x m v : JsNum) : JsNum :=
  JsNum.div
    (JsNum.exp (JsNum.div (JsNum.neg (JsNum.square (JsNum.sub x m)))
      (JsNum.mul (JsNum.fin 2) v)))
    (JsNum.sqrt (JsNum.mul (JsNum.mul (JsNum.fin 2) (JsNum.fin Real.pi)) v))

/-- normalPDF applied with its source default arguments m = 1 and v = 0. -/
noncomputable def normalPDFDefaults (x : JsNum) : JsNum :=
  normalPDF x (JsNum.fin 1) (JsNum.fin 0)

namespace JsNum

/-- IEEE addition on the JsNum model. -/
noncomputable def add : JsNum → JsNum → JsNum
  | nan, _ => nan
  | _, nan => nan
  | fin a, fin b => fin (a + b)
  | posinf, neginf => nan
  | neginf, posinf => nan
  | posinf, _ => posinf
  | _, posinf => posinf
  | neginf, _ => neginf
  | _, neginf => neginf

/-- IEEE natural logarithm on the JsNum model: log of zero is -∞ and log of
a negative number is not-a-number, as in JavaScript. -/
noncomputable def log : JsNum → JsNum
  | nan => nan
  | posinf => posinf
  | neginf => nan
  | fin a => if a < 0 then nan else if a = 0 then neginf else fin (Real.log a)

/-- The IEEE strict greater-than comparison a > b used by the model
selector: false whenever either side is not-a-number. -/
def gtProp : JsNum → JsNum → Prop
  | nan, _ => False
  | _, nan => False
  | posinf, posinf => False
  | posinf, _ => True
  | neginf, _ => False
  | fin _, posinf => False
  | fin _, neginf => True
  | fin a, fin b => b < a

noncomputable instance (a b : JsNum) : Decidable (gtProp a b) :=
  Classical.propDecidable _

end JsNum

/-- IEEE-faithful refinement of the source function linear: same
accumulated real sums, but the closed-form divisions are carried out in
IEEE arithmetic, so identical x values yield NaN or ±∞ parameters exactly
as the source does. -/
noncomputable def linearJs (data : List (ℝ × ℝ)) : List JsNum :=
  let sX := data.foldl (fun s d => s + d.1) 0
  let sY := data.foldl (fun s d => s + d.2) 0
  let sXX := data.foldl (fun s d => s + d.1 * d.1) 0
  let sXY := data.foldl (fun s d => s + d.1 * d.2) 0
  let len : ℝ := data.length
  let gradient := JsNum.div (JsNum.fin (len * sXY - sX * sY)) (JsNum.fin (len * sXX - sX * sX))
  let intercept := JsNum.sub (JsNum.div (JsNum.fin sY) (JsNum.fin len))
    (JsNum.div (JsNum.mul gradient (JsNum.fin sX)) (JsNum.fin len))
  [intercept, gradient]

/-- IEEE-faithful refinement of the source function polynomial.  Modelled
from the spec: the external matrix capability's inverse fails/signals when
XᵀX is singular and that failure propagates to the caller uncaught, so the
result is an Option whose none is the signalled failure; on a nonsingular
XᵀX the normal-equation solution is returned. -/
noncomputable def polynomialJs (data : List (ℝ × ℝ)) (order : ℕ) : Option (List JsNum) :=
  let m := data.length
  let X : Matrix (Fin m) (Fin (order + 1)) ℝ := fun i p => (data.get i).1 ^ (p : ℕ)
  let y : Matrix (Fin m) (Fin 1) ℝ := fun i _ => (data.get i).2
  let XT := X.transpose
  let XTX := XT * X
  if XTX.det = 0 then none
  else some ((List.finRange (order + 1)).map fun p => JsNum.fin ((XTX⁻¹ * XT * y) p 0))

/-- IEEE-faithful refinement of the source function exponential: the two
sums that take logarithms of y values are IEEE sums (NaN for negative y,
0 · (-∞) = NaN for y = 0), so the parameters are NaN whenever some y ≤ 0,
as in the source. -/
noncomputable def exponentialJs (data : List (ℝ × ℝ)) : List JsNum :=
  let s0 := data.foldl (fun s d => s + d.1) 0
  let s1 := JsNum.fin (data.foldl (fun s d => s + d.2) 0)
  let s2 := JsNum.fin (data.foldl (fun s d => s + d.1 * d.1 * d.2) 0)
  let s3 := data.foldl
    (fun s d => JsNum.add s (JsNum.mul (JsNum.fin d.2) (JsNum.log (JsNum.fin d.2)))) (JsNum.fin 0)
  let s4 := data.foldl
    (fun s d => JsNum.add s
      (JsNum.mul (JsNum.mul (JsNum.fin d.1) (JsNum.fin d.2)) (JsNum.log (JsNum.fin d.2))))
    (JsNum.fin 0)
  let s5 := JsNum.fin (data.foldl (fun s d => s + d.1 * d.2) 0)
  let denominator := JsNum.sub (JsNum.mul s1 s2) (JsNum.mul s5 s5)
  let a := JsNum.exp (JsNum.div (JsNum.sub (JsNum.mul s2 s3) (JsNum.mul s5 s4)) denominator)
  let b := JsNum.div (JsNum.sub (JsNum.mul s1 s4) (JsNum.mul s5 s3)) denominator
  [a, b]

/-- IEEE-faithful refinement of the source function coefficient:
R² = 1 - SSE/SSYY in IEEE arithmetic, so all-equal y values (SSYY = 0)
yield NaN or -∞, and a NaN prediction yields NaN — scores that exceed no
threshold, exactly as in the source. -/
noncomputable def coefficientJs (data : List (ℝ × ℝ)) (fn : JsNum → JsNum) : JsNum :=
  let total := data.foldl (fun sum d => sum + d.2) 0
  let mean := JsNum.div (JsNum.fin total) (JsNum.fin (data.length : ℝ))
  let ssyy := data.foldl
    (fun sum d => JsNum.add sum (JsNum.square (JsNum.sub (JsNum.fin d.2) mean))) (JsNum.fin 0)
  let sse := data.foldl
    (fun sum d => JsNum.add sum (JsNum.square (JsNum.sub (JsNum.fin d.2) (fn (JsNum.fin d.1)))))
    (JsNum.fin 0)
  JsNum.sub (JsNum.fin 1) (JsNum.div sse ssyy)

/-- A catalog entry of the IEEE-faithful model: the fitting procedure
returns none when the fit signals a failure (singular matrix). -/
structure RegressionTypeJs where
  name : String
  regression : List (ℝ × ℝ) → Option (List JsNum)
  fn : List JsNum → JsNum → JsNum

/-- The fixed model catalog of regression.js over the IEEE-faithful model,
in source order; a missing parameter (p[i] on a short list) is undefined in
the source and becomes NaN under arithmetic, modelled by the NaN default. -/
noncomputable def typesJs : List RegressionTypeJs :=
  [⟨"linear", fun data => some (linearJs data),
    fun p x => JsNum.add (p.getD 0 JsNum.nan) (JsNum.mul x (p.getD 1 JsNum.nan))⟩,
   ⟨"quadratic", fun data => polynomialJs data 2,
    fun p x => JsNum.add (JsNum.add (p.getD 0 JsNum.nan) (JsNum.mul x (p.getD 1 JsNum.nan)))
      (JsNum.mul (JsNum.mul x x) (p.getD 2 JsNum.nan))⟩,
   ⟨"cubic", fun data => polynomialJs data 3,
    fun p x => JsNum.add
      (JsNum.add (JsNum.add (p.getD 0 JsNum.nan) (JsNum.mul x (p.getD 1 JsNum.nan)))
        (JsNum.mul (JsNum.mul x x) (p.getD 2 JsNum.nan)))
      (JsNum.mul (JsNum.mul (JsNum.mul x x) x) (p.getD 3 JsNum.nan))⟩,
   ⟨"exponential", fun data => some (exponentialJs data),
    fun p x => JsNum.mul (p.getD 0 JsNum.nan) (JsNum.exp (JsNum.mul (p.getD 1 JsNum.nan) x))⟩]

/-- The record returned by find over the IEEE-faithful model. -/
structure RegressionModelJs where
  type : Option String
  fn : JsNum → JsNum
  params : List JsNum
  coeff : Option JsNum

/-- The null model over the IEEE-faithful model (no-op prediction function
modelled from the spec's identity-zero words, as for nullModel). -/
noncomputable def nullModelJs : RegressionModelJs := ⟨none, fun _ => JsNum.fin 0, [], none⟩

/-- The model record find builds for a qualifying catalog entry of the
IEEE-faithful model, given the fitted parameters. -/
noncomputable def modelOfJs (t : RegressionTypeJs) (data : List (ℝ × ℝ))
    (params : List JsNum) : RegressionModelJs :=
  ⟨some t.name, t.fn params, params, some (coefficientJs data (t.fn params))⟩

/-- The loop of find over the IEEE-faithful model: a signalled fitting
failure (none) propagates out of the loop uncaught, as the spec requires of
the matrix capability's failures; otherwise the first entry whose IEEE
score exceeds the threshold is returned, else the null model. -/
noncomputable def findAuxJs (data : List (ℝ × ℝ)) (threshold : ℝ) :
    List RegressionTypeJs → Option RegressionModelJs
  | [] => some nullModelJs
  | t :: rest =>
    match t.regression data with
    | none => none
    | some params =>
      if JsNum.gtProp (coefficientJs data (t.fn params)) (JsNum.fin threshold) then
        some (modelOfJs t data params)
      else findAuxJs data threshold rest

/-- The source function find over the IEEE-faithful model: none is a
propagated fitting failure, some a returned model. -/
noncomputable def findJs (data : List (ℝ × ℝ)) (threshold : ℝ) : Option RegressionModelJs :=
  if 1 < data.length then findAuxJs data threshold typesJs else some nullModelJs

/-- The two-point data set [(0,5),(1,5)] whose y values are all equal and
whose order-2 design matrix has a singular XᵀX. -/
noncomputable def dataFlat : List (ℝ × ℝ) := [(0, 5), (1, 5)]

/-- The data set [(1,1),(2,4),(3,9),(4,16)] of the spec's model-selection
example. -/
noncomputable def data4 : List (ℝ × ℝ) := [(1, 1), (2, 4), (3, 9), (4, 16)]

lemma types_length : types.length = 4 := rfl

lemma linear_data4 : linear data4 = [-5, 5] := by
  simp [linear, data4]
  norm_num

lemma coeffOf_linear_data4 :
    coeffOf ⟨"linear", linear, fun p x => p.getD 0 0 + x * p.getD 1 0⟩ data4 = 125 / 129 := by
  simp only [coeffOf, linear_data4]
  simp [coefficient, square, data4]
  norm_num

lemma find_data4_eq :
    find data4 (9 / 10) =
      ⟨some "linear", fun x => -5 + x * 5, [-5, 5], some (125 / 129)⟩ := by
  have hlen : 1 < data4.length := by simp [data4]
  have hq : (9 : ℝ) / 10 < 125 / 129 := by norm_num
  simp only [find, if_pos hlen, types, findAux, coeffOf_linear_data4, if_pos hq,
    modelOf, linear_data4]
  simp

/-- C1 (counterexample): on the data set [(1,1),(2,4),(3,9),(4,16)] with the
default threshold 0.9, find does not return a model of type quadratic: the
linear fit y = 5x - 5 already has R² = 125/129 > 0.9 and the catalog is
scanned in order, so the returned type is linear. -/
theorem find_data4_not_quadratic :
    (find data4 (9 / 10)).type = some "linear" ∧
    (find data4 (9 / 10)).type ≠ some "quadratic" := by
  rw [find_data4_eq]
  exact ⟨rfl, by simp⟩

/-- C1 (amended): on the data set [(1,1),(2,4),(3,9),(4,16)] with the default
threshold 0.9, find returns the first qualifying catalog entry, which is the
linear model with parameters [-5, 5] (y = 5x - 5), score 125/129, and
prediction function x ↦ -5 + x·5. -/
theorem find_data4_selects_linear :
    (find data4 (9 / 10)).type = some "linear" ∧
    (find data4 (9 / 10)).params = [-5, 5] ∧
    (find data4 (9 / 10)).coeff = some (125 / 129) ∧
    ∀ x : ℝ, (find data4 (9 / 10)).fn x = -5 + x * 5 := by
  rw [find_data4_eq]
  exact ⟨rfl, rfl, rfl, fun x => rfl⟩

lemma findAuxJs_cons_some (data : List (ℝ × ℝ)) (th : ℝ) (t : RegressionTypeJs)
    (rest : List RegressionTypeJs) (ps : List JsNum) (hps : t.regression data = some ps) :
    findAuxJs data th (t :: rest) =
      if JsNum.gtProp (coefficientJs data (t.fn ps)) (JsNum.fin th) then
        some (modelOfJs t data ps)
      else findAuxJs data th rest := by
  rw [findAuxJs, hps]

lemma findAuxJs_cons_none (data : List (ℝ × ℝ)) (th : ℝ) (t : RegressionTypeJs)
    (rest : List RegressionTypeJs) (hps : t.regression data = none) :
    findAuxJs data th (t :: rest) = none := by
  rw [findAuxJs, hps]

lemma findAuxJs_all_unqualified (data : List (ℝ × ℝ)) (th : ℝ) :
    ∀ ts : List RegressionTypeJs,
      (∀ t ∈ ts, ∃ ps, t.regression data = some ps ∧
        ¬ JsNum.gtProp (coefficientJs data (t.fn ps)) (JsNum.fin th)) →
      findAuxJs data th ts = some nullModelJs := by
  intro ts h
  induction ts with
  | nil => rfl
  | cons t rest ih =>
    obtain ⟨ps, hps, hnq⟩ := h t (List.mem_cons_self t rest)
    rw [findAuxJs_cons_some data th t rest ps hps, if_neg hnq]
    exact ih fun s hs => h s (List.mem_cons_of_mem t hs)

lemma findAuxJs_first (data : List (ℝ × ℝ)) (th : ℝ) :
    ∀ (ts : List RegressionTypeJs) (i : ℕ) (hi : i < ts.length) (ps : List JsNum),
      (∀ (j : ℕ) (hj : j < ts.length), j < i →
        ∃ qs, (ts.get ⟨j, hj⟩).regression data = some qs ∧
          ¬ JsNum.gtProp (coefficientJs data ((ts.get ⟨j, hj⟩).fn qs)) (JsNum.fin th)) →
      (ts.get ⟨i, hi⟩).regression data = some ps →
      JsNum.gtProp (coefficientJs data ((ts.get ⟨i, hi⟩).fn ps)) (JsNum.fin th) →
      findAuxJs data th ts = some (modelOfJs (ts.get ⟨i, hi⟩) data ps) := by
  intro ts
  induction ts with
  | nil => intro i hi; exact absurd hi (by simp)
  | cons t rest ih =>
    intro i hi ps hprev hps hqual
    cases i with
    | zero =>
      have hps0 : t.regression data = some ps := hps
      have hq : JsNum.gtProp (coefficientJs data (t.fn ps)) (JsNum.fin th) := hqual
      rw [findAuxJs_cons_some data th t rest ps hps0, if_pos hq]
      rfl
    | succ k =>
      obtain ⟨qs, hqs, hnq⟩ := hprev 0 (by simp) (Nat.succ_pos k)
      have hqs0 : t.regression data = some qs := hqs
      have hnq0 : ¬ JsNum.gtProp (coefficientJs data (t.fn qs)) (JsNum.fin th) := hnq
      rw [findAuxJs_cons_some data th t rest qs hqs0, if_neg hnq0]
      exact ih k (by simpa using hi) ps
        (fun j hj hjk => hprev (j + 1) (by simpa using hj) (by omega)) hps hqual

lemma findAuxJs_failure (data : List (ℝ × ℝ)) (th : ℝ) :
    ∀ (ts : List RegressionTypeJs) (i : ℕ) (hi : i < ts.length),
      (∀ (j : ℕ) (hj : j < ts.length), j < i →
        ∃ qs, (ts.get ⟨j, hj⟩).regression data = some qs ∧
          ¬ JsNum.gtProp (coefficientJs data ((ts.get ⟨j, hj⟩).fn qs)) (JsNum.fin th)) →
      (ts.get ⟨i, hi⟩).regression data = none →
      findAuxJs data th ts = none := by
  intro ts
  induction ts with
  | nil => intro i hi; exact absurd hi (by simp)
  | cons t rest ih =>
    intro i hi hprev hnone
    cases i with
    | zero =>
      exact findAuxJs_cons_none data th t rest hnone
    | succ k =>
      obtain ⟨qs, hqs, hnq⟩ := hprev 0 (by simp) (Nat.succ_pos k)
      have hqs0 : t.regression data = some qs := hqs
      have hnq0 : ¬ JsNum.gtProp (coefficientJs data (t.fn qs)) (JsNum.fin th) := hnq
      rw [findAuxJs_cons_some data th t rest qs hqs0, if_neg hnq0]
      exact ih k (by simpa using hi)
        (fun j hj hjk => hprev (j + 1) (by simpa using hj) (by omega)) hnone

lemma linearJs_dataFlat : linearJs dataFlat = [JsNum.fin 5, JsNum.fin 0] := by
  norm_num [linearJs, dataFlat, JsNum.div, JsNum.mul, JsNum.sub]

lemma coefficientJs_dataFlat_linear :
    coefficientJs dataFlat
      (fun x => JsNum.add (JsNum.fin 5) (JsNum.mul x (JsNum.fin 0))) = JsNum.nan := by
  norm_num [coefficientJs, dataFlat, JsNum.add, JsNum.mul, JsNum.sub, JsNum.div, JsNum.square]

lemma polynomialJs_dataFlat_quadratic : polynomialJs dataFlat 2 = none := by
  have hx : ∀ k : Fin dataFlat.length,
      (dataFlat.get k).1 = 0 ∨ (dataFlat.get k).1 = 1 := by
    intro k
    have hk : dataFlat.get k ∈ dataFlat := dataFlat.get_mem k.1 k.2
    rcases List.mem_cons.mp hk with h | h
    · left; rw [h]
    · right
      rw [List.mem_singleton.mp h]
  simp only [polynomialJs]
  rw [if_pos]
  apply Matrix.det_zero_of_row_eq (show (1 : Fin 3) ≠ 2 by decide)
  funext q
  rw [Matrix.mul_apply, Matrix.mul_apply]
  refine Finset.sum_congr rfl fun k _ => ?_
  rw [Matrix.transpose_apply, Matrix.transpose_apply]
  have h12 : (dataFlat.get k).1 ^ ((1 : Fin 3) : ℕ) = (dataFlat.get k).1 ^ ((2 : Fin 3) : ℕ) := by
    rcases hx k with h | h <;> rw [h] <;> norm_num
  rw [h12]

/-- C2 (counterexample): at the two-point data set [(0,5),(1,5)] and the
default threshold 0.9 — inside the claim's universal domain — find returns
neither the first qualifying model nor the null model: the linear entry's
score is NaN (SSYY = 0) so it does not qualify, and the quadratic fit then
hits a singular XᵀX, whose signalled failure propagates out of find, so no
model at all is returned. -/
theorem findJs_dataFlat_failure :
    2 ≤ dataFlat.length ∧ findJs dataFlat (9 / 10) = none ∧
    findJs dataFlat (9 / 10) ≠ some nullModelJs ∧
    ∀ m : RegressionModelJs, findJs dataFlat (9 / 10) ≠ some m := by
  have h2 : 2 ≤ dataFlat.length := by simp [dataFlat]
  have hfn : ∀ qs : List JsNum, qs = [JsNum.fin 5, JsNum.fin 0] →
      (fun x => JsNum.add (qs.getD 0 JsNum.nan) (JsNum.mul x (qs.getD 1 JsNum.nan))) =
        fun x => JsNum.add (JsNum.fin 5) (JsNum.mul x (JsNum.fin 0)) := by
    intro qs hqs
    subst hqs
    rfl
  have hmain : findJs dataFlat (9 / 10) = none := by
    rw [findJs, if_pos (by omega)]
    refine findAuxJs_failure dataFlat (9 / 10) typesJs 1 (by simp [typesJs]) ?_
      polynomialJs_dataFlat_quadratic
    intro j hj hj1
    interval_cases j
    refine ⟨linearJs dataFlat, rfl, ?_⟩
    rw [linearJs_dataFlat]
    have hq : (typesJs.get ⟨0, by simp [typesJs]⟩).fn [JsNum.fin 5, JsNum.fin 0] =
        fun x => JsNum.add (JsNum.fin 5) (JsNum.mul x (JsNum.fin 0)) :=
      hfn [JsNum.fin 5, JsNum.fin 0] rfl
    rw [hq, coefficientJs_dataFlat_linear]
    simp [JsNum.gtProp]
  refine ⟨h2, hmain, ?_, ?_⟩
  · rw [hmain]
    simp
  · intro m
    rw [hmain]
    simp

/-- C2 (amended): for every data set with at least 2 points and every
threshold, find scans the catalog in the fixed order linear, quadratic
(polynomial order 2), cubic (polynomial order 3), exponential, scoring each
fitted entry with the IEEE coefficient (NaN when SSYY = 0 or the fit is
degenerate, and NaN exceeds no threshold): when every entry fits and none
qualifies it returns the null model, not the best-scoring model; when the
entries before position i fit without qualifying and entry i fits with a
score exceeding the threshold, it returns entry i's model; but when the
entries before position i fit without qualifying and entry i's fit signals
a singular matrix, the failure propagates and find returns no model. -/
theorem findJs_first_qualifying (data : List (ℝ × ℝ)) (threshold : ℝ)
    (h2 : 2 ≤ data.length) :
    typesJs.map RegressionTypeJs.name = ["linear", "quadratic", "cubic", "exponential"] ∧
    (∀ i : Fin typesJs.length, (i : ℕ) = 1 →
      ∀ d, (typesJs.get i).regression d = polynomialJs d 2) ∧
    (∀ i : Fin typesJs.length, (i : ℕ) = 2 →
      ∀ d, (typesJs.get i).regression d = polynomialJs d 3) ∧
    ((∀ t ∈ typesJs, ∃ ps, t.regression data = some ps ∧
        ¬ JsNum.gtProp (coefficientJs data (t.fn ps)) (JsNum.fin threshold)) →
      findJs data threshold = some nullModelJs) ∧
    (∀ i : Fin typesJs.length, ∀ ps : List JsNum,
      (∀ j : Fin typesJs.length, (j : ℕ) < (i : ℕ) →
        ∃ qs, (typesJs.get j).regression data = some qs ∧
          ¬ JsNum.gtProp (coefficientJs data ((typesJs.get j).fn qs)) (JsNum.fin threshold)) →
      (typesJs.get i).regression data = some ps →
      JsNum.gtProp (coefficientJs data ((typesJs.get i).fn ps)) (JsNum.fin threshold) →
      findJs data threshold = some (modelOfJs (typesJs.get i) data ps)) ∧
    (∀ i : Fin typesJs.length,
      (∀ j : Fin typesJs.length, (j : ℕ) < (i : ℕ) →
        ∃ qs, (typesJs.get j).regression data = some qs ∧
          ¬ JsNum.gtProp (coefficientJs data ((typesJs.get j).fn qs)) (JsNum.fin threshold)) →
      (typesJs.get i).regression data = none →
      findJs data threshold = none) := by
  have hlen : 1 < data.length := by omega
  refine ⟨by simp [typesJs], ?_, ?_, ?_, ?_, ?_⟩
  · intro i h1 d
    obtain ⟨iv, hlt⟩ := i
    change iv = 1 at h1
    subst h1
    rfl
  · intro i h2' d
    obtain ⟨iv, hlt⟩ := i
    change iv = 2 at h2'
    subst h2'
    rfl
  · intro hall
    rw [findJs, if_pos hlen]
    exact findAuxJs_all_unqualified data threshold typesJs hall
  · intro i ps hprev hps hqual
    rw [findJs, if_pos hlen]
    exact findAuxJs_first data threshold typesJs i i.isLt ps
      (fun j hj hji => hprev ⟨j, hj⟩ hji) hps hqual
  · intro i hprev hnone
    rw [findJs, if_pos hlen]
    exact findAuxJs_failure data threshold typesJs i i.isLt
      (fun j hj hji => hprev ⟨j, hj⟩ hji) hnone

/-- Witness for C2's amended theorem at the data set [(0,5),(1,5)] and the
default threshold 0.9. -/
theorem findJs_first_qualifying_witness :
    2 ≤ dataFlat.length ∧
    (typesJs.map RegressionTypeJs.name = ["linear", "quadratic", "cubic", "exponential"] ∧
    (∀ i : Fin typesJs.length, (i : ℕ) = 1 →
      ∀ d, (typesJs.get i).regression d = polynomialJs d 2) ∧
    (∀ i : Fin typesJs.length, (i : ℕ) = 2 →
      ∀ d, (typesJs.get i).regression d = polynomialJs d 3) ∧
    ((∀ t ∈ typesJs, ∃ ps, t.regression dataFlat = some ps ∧
        ¬ JsNum.gtProp (coefficientJs dataFlat (t.fn ps)) (JsNum.fin (9 / 10))) →
      findJs dataFlat (9 / 10) = some nullModelJs) ∧
    (∀ i : Fin typesJs.length, ∀ ps : List JsNum,
      (∀ j : Fin typesJs.length, (j : ℕ) < (i : ℕ) →
        ∃ qs, (typesJs.get j).regression dataFlat = some qs ∧
          ¬ JsNum.gtProp (coefficientJs dataFlat ((typesJs.get j).fn qs)) (JsNum.fin (9 / 10))) →
      (typesJs.get i).regression dataFlat = some ps →
      JsNum.gtProp (coefficientJs dataFlat ((typesJs.get i).fn ps)) (JsNum.fin (9 / 10)) →
      findJs dataFlat (9 / 10) = some (modelOfJs (typesJs.get i) dataFlat ps)) ∧
    (∀ i : Fin typesJs.length,
      (∀ j : Fin typesJs.length, (j : ℕ) < (i : ℕ) →
        ∃ qs, (typesJs.get j).regression dataFlat = some qs ∧
          ¬ JsNum.gtProp (coefficientJs dataFlat ((typesJs.get j).fn qs)) (JsNum.fin (9 / 10))) →
      (typesJs.get i).regression dataFlat = none →
      findJs dataFlat (9 / 10) = none)) :=
  ⟨by simp [dataFlat], findJs_first_qualifying dataFlat (9 / 10) (by simp [dataFlat])⟩

/-- C4: for every data set with fewer than 2 points and every threshold, find
returns the null model: null type tag, the no-op prediction function, and an
empty parameter vector; an ordinary return value. -/
theorem find_short_data (data : List (ℝ × ℝ)) (threshold : ℝ)
    (h : data.length < 2) :
    find data threshold = nullModel ∧ (find data threshold).type = none ∧
    (find data threshold).fn = noop ∧ (find data threshold).params = [] := by
  have h1 : ¬ 1 < data.length := by omega
  rw [find, if_neg h1]
  exact ⟨rfl, rfl, rfl, rfl⟩

/-- Witness for C4 at the empty data set. -/
theorem find_short_data_witness :
    ([] : List (ℝ × ℝ)).length < 2 ∧
    (find [] (9 / 10) = nullModel ∧ (find ([] : List (ℝ × ℝ)) (9 / 10)).type = none ∧
    (find ([] : List (ℝ × ℝ)) (9 / 10)).fn = noop ∧
    (find ([] : List (ℝ × ℝ)) (9 / 10)).params = []) :=
  ⟨by simp, find_short_data [] (9 / 10) (by simp)⟩

/-- C5: fitting linear on the exact data set [(1,3),(2,5),(3,7)] returns the
parameter vector [1, 2] (intercept 1, slope 2), and on every data set linear
computes the closed-form slope (nΣxy - ΣxΣy)/(nΣx² - (Σx)²) and intercept
ȳ - slope·x̄. -/
theorem linear_round_trip :
    linear [((1 : ℝ), 3), (2, 5), (3, 7)] = [1, 2] ∧
    ∀ data : List (ℝ × ℝ),
      linear data =
        [data.foldl (fun s d => s + d.2) 0 / (data.length : ℝ) -
            ((data.length : ℝ) * data.foldl (fun s d => s + d.1 * d.2) 0 -
                data.foldl (fun s d => s + d.1) 0 * data.foldl (fun s d => s + d.2) 0) /
              ((data.length : ℝ) * data.foldl (fun s d => s + d.1 * d.1) 0 -
                data.foldl (fun s d => s + d.1) 0 * data.foldl (fun s d => s + d.1) 0) *
            (data.foldl (fun s d => s + d.1) 0 / (data.length : ℝ)),
          ((data.length : ℝ) * data.foldl (fun s d => s + d.1 * d.2) 0 -
              data.foldl (fun s d => s + d.1) 0 * data.foldl (fun s d => s + d.2) 0) /
            ((data.length : ℝ) * data.foldl (fun s d => s + d.1 * d.1) 0 -
              data.foldl (fun s d => s + d.1) 0 * data.foldl (fun s d => s + d.1) 0)] := by
  constructor
  · simp [linear]
    norm_num
  · intro data
    simp [linear, mul_div_assoc]

lemma foldl_add_eq (l : List ℚ) : ∀ a : ℚ, l.foldl (fun t x => t + x) a = a + l.sum := by
  induction l with
  | nil => intro a; simp
  | cons w rest ih =>
    intro a
    rw [List.foldl_cons, ih, List.sum_cons]
    ring

lemma weightedTotal_eq_sum (ws : List ℚ) : weightedTotal ws = ws.sum := by
  rw [weightedTotal, foldl_add_eq, zero_add]

lemma weightedScan_pos :
    ∀ (ws : List ℚ) (rand curr : ℚ), curr < rand → rand ≤ curr + ws.sum →
      ∃ j, ∃ hj : j < ws.length, weightedScan ws rand curr = some j ∧
        0 < ws.get ⟨j, hj⟩ := by
  intro ws
  induction ws with
  | nil =>
    intro rand curr h1 h2
    rw [List.sum_nil, add_zero] at h2
    exact absurd h2 (not_le.mpr h1)
  | cons w rest ih =>
    intro rand curr h1 h2
    by_cases hle : rand ≤ curr + w
    · refine ⟨0, by simp, ?_, ?_⟩
      · rw [weightedScan, if_pos hle]
      · have : 0 < w := by linarith
        simpa using this
    · push_neg at hle
      have h2' : rand ≤ curr + w + rest.sum := by
        rw [List.sum_cons] at h2
        linarith
      obtain ⟨j, hj, hscan, hpos⟩ := ih rand (curr + w) hle h2'
      refine ⟨j + 1, by simpa using hj, ?_, ?_⟩
      · rw [weightedScan, if_neg (not_le.mpr hle), hscan]
        rfl
      · simpa using hpos

/-- C3 (counterexample): with the draw r = 0 (possible, since the uniform
draw lies in [0, T)) on the weight collection {a: 0, b: 10}, weighted
returns index 0, the entry whose weight is 0 — not index 1 ('b'). -/
theorem weighted_zero_draw_zero_weight :
    weighted [(0 : ℚ), 10] 0 = some 0 ∧ [(0 : ℚ), 10].getD 0 1 ≤ 0 := by
  constructor
  · norm_num [weighted, weightedTotal, weightedScan]
  · norm_num

/-- C3 (amended): for every weight collection with non-negative entries and
positive total T, and every uniform draw r = u·T strictly inside (0, T),
weighted returns an index whose weight is positive; in particular on
{a: 0, b: 10} it returns index 1 ('b') for every such draw.  (At the
boundary draw r = 0 a zero-weight leading entry is selected instead.) -/
theorem weighted_pos_draw_pos_weight :
    (∀ (ws : List ℚ) (u : ℚ), (∀ w ∈ ws, 0 ≤ w) → 0 < weightedTotal ws →
      0 < u → u < 1 →
      ∃ j, ∃ hj : j < ws.length, weighted ws u = some j ∧ 0 < ws.get ⟨j, hj⟩) ∧
    (∀ u : ℚ, 0 < u → u < 1 → weighted [(0 : ℚ), 10] u = some 1) := by
  constructor
  · intro ws u _ ht hu0 hu1
    have hrand : 0 < u * weightedTotal ws := mul_pos hu0 ht
    have hle : u * weightedTotal ws ≤ 0 + ws.sum := by
      rw [zero_add, ← weightedTotal_eq_sum]
      nlinarith
    exact weightedScan_pos ws (u * weightedTotal ws) 0 hrand hle
  · intro u hu0 hu1
    have htot : weightedTotal [(0 : ℚ), 10] = 10 := by norm_num [weightedTotal]
    show weightedScan [(0 : ℚ), 10] (u * weightedTotal [(0 : ℚ), 10]) 0 = some 1
    rw [htot, weightedScan, if_neg (by linarith), weightedScan, if_pos (by linarith)]
    rfl

/-- Witness for C3's amended theorem at the collection {a: 0, b: 10} and the
draw u = 1/2. -/
theorem weighted_pos_draw_pos_weight_witness :
    (∃ j, ∃ hj : j < [(0 : ℚ), 10].length, weighted [(0 : ℚ), 10] (1 / 2) = some j ∧
      0 < [(0 : ℚ), 10].get ⟨j, hj⟩) ∧
    weighted [(0 : ℚ), 10] (1 / 2) = some 1 :=
  ⟨weighted_pos_draw_pos_weight.1 [(0 : ℚ), 10] (1 / 2) (by norm_num)
      (by norm_num [weightedTotal]) (by norm_num) (by norm_num),
    weighted_pos_draw_pos_weight.2 (1 / 2) (by norm_num) (by norm_num)⟩

lemma mem_set_cases :
    ∀ (l : List ℤ) (n : ℕ) (a c : ℤ), c ∈ l.set n a →
      c ∈ l ∨ (c = a ∧ n < l.length) := by
  intro l
  induction l with
  | nil => intro n a c hc; simp at hc
  | cons b t ih =>
    intro n a c hc
    cases n with
    | zero =>
      rw [List.set_cons_zero] at hc
      rcases List.mem_cons.mp hc with h | h
      · exact Or.inr ⟨h, by simp⟩
      · exact Or.inl (List.mem_cons_of_mem b h)
    | succ m =>
      rw [List.set_cons_succ] at hc
      rcases List.mem_cons.mp hc with h | h
      · exact Or.inl (h ▸ List.mem_cons_self b t)
      · rcases ih m a c h with h' | ⟨he, hm⟩
        · exact Or.inl (List.mem_cons_of_mem b h')
        · exact Or.inr ⟨he, by simpa using hm⟩

lemma smartStep_pos (cache : List ℤ) (x : ℕ) (h : ∀ c ∈ cache, 1 ≤ c) :
    ∀ c ∈ smartStep cache x, 1 ≤ c := by
  intro c hc
  rw [smartStep] at hc
  set cache2 := cache.set x (cache.getD x 0 - 1) with hc2
  have hmem : ∀ d ∈ cache2, 0 ≤ d := by
    intro d hd
    rcases mem_set_cases cache x (cache.getD x 0 - 1) d hd with h' | ⟨he, hm⟩
    · linarith [h d h']
    · have hgd : cache.getD x 0 = cache[x] := List.getD_eq_getElem cache 0 hm
      have h1 : 1 ≤ cache[x] := h _ (List.getElem_mem hm)
      omega
  by_cases hif : cache2.getD x 0 ≤ 0
  · rw [if_pos hif] at hc
    obtain ⟨d, hd, rfl⟩ := List.mem_map.mp hc
    linarith [hmem d hd]
  · rw [if_neg hif] at hc
    push_neg at hif
    rcases mem_set_cases cache x (cache.getD x 0 - 1) c hc with h' | ⟨he, hm⟩
    · exact h c h'
    · have hget : cache2.getD x 0 = cache.getD x 0 - 1 := by
        rw [hc2]
        rw [List.getD_eq_getElem _ 0 (by simpa using hm)]
        simp
      omega

lemma foldl_smartStep_pos :
    ∀ (draws : List ℕ) (st : List ℤ), (∀ c ∈ st, 1 ≤ c) →
      ∀ c ∈ draws.foldl smartStep st, 1 ≤ c := by
  intro draws
  induction draws with
  | nil => intro st h; simpa using h
  | cons d rest ih =>
    intro st h
    rw [List.foldl_cons]
    exact ih (smartStep st d) (smartStep_pos st d h)

/-- C6: for every n ≥ 1, starting from the anti-repetition sampler state of
n counters initialized to 1, after any sequence of completed draws (each
drawn index below n, the state update decrementing the drawn counter and,
when it drops to ≤ 0, incrementing every counter) every counter is ≥ 1. -/
theorem smart_counters_ge_one (n : ℕ) (hn : 1 ≤ n) (draws : List ℕ)
    (hd : ∀ x ∈ draws, x < n) :
    ∀ c ∈ draws.foldl smartStep (List.replicate n (1 : ℤ)), 1 ≤ c := by
  refine foldl_smartStep_pos draws _ ?_
  intro c hc
  rw [List.eq_of_mem_replicate hc]

/-- Witness for C6 at n = 2 and the draw sequence [0, 0, 1]. -/
theorem smart_counters_ge_one_witness :
    1 ≤ 2 ∧ (∀ x ∈ [0, 0, 1], x < 2) ∧
    ∀ c ∈ [0, 0, 1].foldl smartStep (List.replicate 2 (1 : ℤ)), 1 ≤ c :=
  ⟨by norm_num, by decide, smart_counters_ge_one 2 (by norm_num) [0, 0, 1] (by decide)⟩

lemma cons_get_set_perm {α : Type} :
    ∀ (t : List α) (m : ℕ) (hm : m < t.length) (a : α),
      (t.get ⟨m, hm⟩ :: t.set m a).Perm (a :: t) := by
  intro t
  induction t with
  | nil => intro m hm; exact absurd hm (by simp)
  | cons b t ih =>
    intro m hm a
    cases m with
    | zero => exact List.Perm.swap a b t
    | succ k =>
      have hk : k < t.length := by simpa using hm
      exact (List.Perm.swap b (t.get ⟨k, hk⟩) (t.set k a)).trans
        (((ih k hk a).cons b).trans (List.Perm.swap a b t))

lemma set_set_perm {α : Type} :
    ∀ (l : List α) (i j : ℕ) (hi : i < l.length) (hj : j < l.length),
      ((l.set i (l.get ⟨j, hj⟩)).set j (l.get ⟨i, hi⟩)).Perm l := by
  intro l
  induction l with
  | nil => intro i j hi; exact absurd hi (by simp)
  | cons a t ih =>
    intro i j hi hj
    cases i with
    | zero =>
      cases j with
      | zero => exact List.Perm.refl _
      | succ m =>
        have hm : m < t.length := by simpa using hj
        exact cons_get_set_perm t m hm a
    | succ k =>
      cases j with
      | zero =>
        have hk : k < t.length := by simpa using hi
        exact cons_get_set_perm t k hk a
      | succ m =>
        have hk : k < t.length := by simpa using hi
        have hm : m < t.length := by simpa using hj
        exact (ih k m hk hm).cons a

lemma swapList_perm {α : Type} (l : List α) (i j : ℕ) : (swapList l i j).Perm l := by
  rw [swapList]
  by_cases hi : i < l.length
  · rw [dif_pos hi]
    by_cases hj : j < l.length
    · rw [dif_pos hj]
      exact set_set_perm l i j hi hj
    · rw [dif_neg hj]
  · rw [dif_neg hi]

lemma shuffleAux_perm {α : Type} (u : ℕ → ℚ) :
    ∀ (k : ℕ) (a : List α), (shuffleAux u k a).Perm a := by
  intro k
  induction k with
  | zero => intro a; exact List.Perm.refl a
  | succ i ih =>
    intro a
    rw [shuffleAux]
    exact (ih _).trans (swapList_perm a (i + 1) (Nat.floor (u (i + 1) * (i + 2))))

/-- C7: for every input array and every sequence of uniform draws, shuffle
returns an array that is a permutation of the input (same multiset of
elements, hence same length); the input list itself is untouched (the source
operates on a copy, and the embedding is pure). -/
theorem shuffle_perm (α : Type) (a : List α) (u : ℕ → ℚ) :
    (shuffle a u).Perm a ∧ (shuffle a u).length = a.length := by
  have hp : (shuffle a u).Perm a := shuffleAux_perm u (a.length - 1) a
  exact ⟨hp, hp.length_eq⟩

/-- C8: geometric returns the null sentinel exactly when p ≤ 0 or p > 1, and
for 0 < p ≤ 1 it returns the number ⌊log u / log (1-p)⌋ for the uniform
draw u, never the sentinel. -/
theorem geometric_spec (p u : ℝ) :
    (geometric p u = none ↔ p ≤ 0 ∨ 1 < p) ∧
    (0 < p → p ≤ 1 → geometric p u = some ⌊Real.log u / Real.log (1 - p)⌋) := by
  constructor
  · constructor
    · intro h
      by_contra hc
      rw [geometric, if_neg hc] at h
      exact Option.some_ne_none _ h
    · intro h
      rw [geometric, if_pos h]
  · intro h1 h2
    rw [geometric, if_neg]
    push_neg
    exact ⟨h1, h2⟩

/-- Witness for C8 at p = 1/2, u = 1/2. -/
theorem geometric_spec_witness :
    (0 : ℝ) < 1 / 2 ∧ (1 : ℝ) / 2 ≤ 1 ∧
    geometric (1 / 2) (1 / 2) = some ⌊Real.log (1 / 2) / Real.log (1 - 1 / 2)⌋ :=
  ⟨by norm_num, by norm_num,
    (geometric_spec (1 / 2) (1 / 2)).2 (by norm_num) (by norm_num)⟩

/-- C9: for every real argument z, the reflection branch of gamma is taken
only when z < 0.5, its recursive argument 1 - z is then greater than 0.5,
and that recursive call takes the non-recursive Lanczos branch — so gamma
terminates with at most one reflection step. -/
theorem gamma_single_reflection (z : ℝ) (h : z < 0.5) :
    (0.5 : ℝ) < 1 - z ∧
    gamma z = Real.pi / (Real.sin (Real.pi * z) * gamma (1 - z)) ∧
    gamma (1 - z) = gammaBody (1 - z) := by
  have h05 : (0.5 : ℝ) = 1 / 2 := by norm_num
  have h2 : (0.5 : ℝ) < 1 - z := by rw [h05] at h ⊢; linarith
  refine ⟨h2, ?_, ?_⟩
  · rw [gamma, dif_pos h]
  · rw [gamma, dif_neg (not_lt.mpr (le_of_lt h2))]

/-- Witness for C9 at z = 0. -/
theorem gamma_single_reflection_witness :
    (0 : ℝ) < 0.5 ∧
    ((0.5 : ℝ) < 1 - 0 ∧
    gamma 0 = Real.pi / (Real.sin (Real.pi * 0) * gamma (1 - 0)) ∧
    gamma (1 - 0) = gammaBody (1 - 0)) :=
  ⟨by norm_num, gamma_single_reflection 0 (by norm_num)⟩

/-- C10: normalPDF's source default arguments are mean m = 1 and variance
v = 0, and with them every finite argument x produces a division by zero
that evaluates to NaN under IEEE-754 arithmetic — the default violates the
variance > 0 precondition. -/
theorem normalPDF_default_nan (x : ℝ) :
    normalPDFDefaults (JsNum.fin x) = JsNum.nan := by
  rw [normalPDFDefaults, normalPDF]
  by_cases hx : x = 1
  · subst hx
    simp [JsNum.sub, JsNum.square, JsNum.mul, JsNum.neg, JsNum.div, JsNum.exp, JsNum.sqrt]
  · have hs : 0 < (x - 1) * (x - 1) := mul_self_pos.mpr (sub_ne_zero.mpr hx)
    have hne : -((x - 1) * (x - 1)) ≠ 0 := by linarith
    have hnlt : ¬ 0 < -((x - 1) * (x - 1)) := by linarith
    simp [JsNum.sub, JsNum.square, JsNum.mul, JsNum.neg, JsNum.div, JsNum.exp, JsNum.sqrt,
      hne, hnlt]

end Fermat
